import Mathlib

/-!
Verification of the sitemap-to-report analysis pipeline implemented in
`src/backend/main.py` of the `seoblogmeta` repository.

The Python code is shallowly embedded: Python strings are `List Char`
(sequences of Unicode scalar values), pure helpers become Lean functions,
and the effectful parts (network fetches, the external analysis call, the
per-candidate loop of `analyze_sitemap`) are modelled by explicit
environments that supply the outcome of each external interaction, with
event traces recording the observable actions (attempts, pauses).
Python exceptions are modelled with `Except`.
-/

namespace SeoSpec

/-- The set of code points Python `str.split()` / `str.strip()` treat as
whitespace: ASCII whitespace `\t \n \v \f \r`, the ASCII separator
controls 28..31, the space, and the Unicode space characters. -/
def pyIsSpace (c : Char) : Bool :=
  c.toNat == 9 || c.toNat == 10 || c.toNat == 11 || c.toNat == 12 || c.toNat == 13 ||
  c.toNat == 28 || c.toNat == 29 || c.toNat == 30 || c.toNat == 31 || c.toNat == 32 ||
  c.toNat == 133 || c.toNat == 160 || c.toNat == 5760 ||
  c.toNat == 8192 || c.toNat == 8193 || c.toNat == 8194 || c.toNat == 8195 ||
  c.toNat == 8196 || c.toNat == 8197 || c.toNat == 8198 || c.toNat == 8199 ||
  c.toNat == 8200 || c.toNat == 8201 || c.toNat == 8202 ||
  c.toNat == 8232 || c.toNat == 8233 || c.toNat == 8239 || c.toNat == 8287 ||
  c.toNat == 12288

/-- Accumulator-passing worker for Python `str.split()` with no argument:
splits on runs of whitespace and never yields empty tokens. The
accumulator holds the current token reversed. -/
def splitWsGo : List Char → List Char → List (List Char)
  | [], acc => if acc = [] then [] else [acc.reverse]
  | c :: cs, acc =>
    if pyIsSpace c then
      if acc = [] then splitWsGo cs [] else acc.reverse :: splitWsGo cs []
    else splitWsGo cs (c :: acc)

/-- Python `s.split()` (no argument). -/
def pySplit (l : List Char) : List (List Char) := splitWsGo l []

/-- Python `sep.join(parts)`. -/
def joinWith (sep : List Char) : List (List Char) → List Char
  | [] => []
  | [t] => t
  | t :: ts => t ++ sep ++ joinWith sep ts

/-- Python `" ".join(s.split())`: collapse every whitespace run to a single
space and drop leading/trailing whitespace. Used at `main.py:65`,
`main.py:89`, `main.py:276` and `main.py:317`. -/
def collapseWs (l : List Char) : List Char := joinWith [' '] (pySplit l)

/-- Python `s.strip()` (no argument): drop leading and trailing whitespace. -/
def pyStrip (l : List Char) : List Char :=
  ((l.dropWhile pyIsSpace).reverse.dropWhile pyIsSpace).reverse

/-- Boolean prefix test on character lists. -/
def hasPfx : List Char → List Char → Bool
  | [], _ => true
  | _ :: _, [] => false
  | p :: ps, c :: cs => p == c && hasPfx ps cs

/-- Python `s.split(pat, 1)` restricted to the information the embedded
code uses: `some (before, after)` splits at the first occurrence of
`pat`, `none` means `pat` does not occur in `s`. -/
def splitOnMarker (pat : List Char) : List Char → Option (List Char × List Char)
  | [] => if hasPfx pat [] then some ([], ([] : List Char).drop pat.length) else none
  | c :: cs =>
    if hasPfx pat (c :: cs) then some ([], (c :: cs).drop pat.length)
    else
      match splitOnMarker pat cs with
      | some (a, b) => some (c :: a, b)
      | none => none

/-- Python `pat in s` (substring containment). -/
def hasSub (pat l : List Char) : Bool := (splitOnMarker pat l).isSome

/-- The bytes `urllib.parse.quote(path, safe=":/?=&")` leaves unescaped:
ASCII alphanumerics, the always-safe `_ . - ~`, and the safe argument
characters `: / ? = &`. -/
def urlSafeByte (b : Nat) : Bool :=
  (65 ≤ b && b ≤ 90) || (97 ≤ b && b ≤ 122) || (48 ≤ b && b ≤ 57) ||
  b == 95 || b == 46 || b == 45 || b == 126 ||
  b == 58 || b == 47 || b == 63 || b == 61 || b == 38

/-- Uppercase hexadecimal digit, as produced by percent-encoding. -/
def hexDigitChar (k : Nat) : Char := "0123456789ABCDEF".toList.getD k '0'

/-- Percent-escape of a single byte, `%XX` with uppercase hex. -/
def pctEncode (b : Nat) : List Char := ['%', hexDigitChar (b / 16), hexDigitChar (b % 16)]

/-- UTF-8 encoding of a Unicode scalar value, as a list of byte values. -/
def utf8Bytes (c : Char) : List Nat :=
  if c.toNat < 128 then [c.toNat]
  else if c.toNat < 2048 then [192 + c.toNat / 64, 128 + c.toNat % 64]
  else if c.toNat < 65536 then
    [224 + c.toNat / 4096, 128 + c.toNat / 64 % 64, 128 + c.toNat % 64]
  else
    [240 + c.toNat / 262144, 128 + c.toNat / 4096 % 64, 128 + c.toNat / 64 % 64,
     128 + c.toNat % 64]

/-- Per-character step of `urllib.parse.quote`: the character is UTF-8
encoded and every byte is either left as is (when safe) or
percent-escaped. A safe byte is ASCII and maps back to the input
character, so the safe branch returns the character directly; the bytes
of a non-ASCII character are all at least 128, never safe, and are all
escaped. -/
def quoteChar (c : Char) : List Char :=
  if c.toNat < 128 then
    if urlSafeByte c.toNat then [c] else pctEncode c.toNat
  else (utf8Bytes c).flatMap pctEncode

/-- Python `urllib.parse.quote(l, safe=":/?=&")`. -/
def pyQuote (l : List Char) : List Char := l.flatMap quoteChar

/-- The scheme separator `://` that `clean_url` splits on. -/
def schemeSep : List Char := [':', '/', '/']

/-- The scheme-splitting step of `clean_url` (`main.py:69-75`): split once
on `://`; when the separator occurs, percent-encode only the part after
it with `quote(path, safe=":/?=&")`; otherwise return the string as is. -/
def applySchemeQuote (z : List Char) : List Char :=
  match splitOnMarker schemeSep z with
  | some (scheme, path) => scheme ++ schemeSep ++ pyQuote path
  | none => z

/-- `clean_url` from `main.py:62-75`: collapse whitespace with
`" ".join(url.split())`, drop the remaining characters with code point
below 32, then apply the scheme-splitting percent-encoding step. -/
def clean_url (url : List Char) : List Char :=
  applySchemeQuote ((collapseWs url).filter fun c => 32 ≤ c.toNat)

/-! ## The candidate loop of `analyze_sitemap` (PipelineOrchestrator) -/

/-- Outcome of processing one candidate URL in the `analyze_sitemap` loop
(`main.py:309-355`), abstracting the network, extraction and analysis
effects: `recorded row` means the page was fetched, non-empty content was
extracted and the external analysis succeeded, appending `row` to
`analyzed_blogs` (`main.py:325-341`); `skipped` means no stage raised but
the extracted content was empty (`main.py:342-344`); `failed` means some
stage raised and execution jumped to the `except` block
(`main.py:349-355`). -/
inductive CandOutcome (α : Type) where
  | recorded (row : α)
  | skipped
  | failed

/-- Observable events of the candidate loop: `start i` marks that
candidate `i` began processing, `done i e` marks the end of its
processing with the consecutive-error counter at `e`, and `sleep s` is an
`asyncio.sleep(s)` pause (`main.py:347`). -/
inductive LoopEvent where
  | start (i : Nat)
  | done (i : Nat) (errCount : Nat)
  | sleep (secs : Nat)
deriving DecidableEq

/-- Result of the candidate loop: the accumulated `analyzed_blogs`, the
event trace, and the final `error_count`. -/
structure LoopResult (α : Type) where
  records : List α
  events : List LoopEvent
  errorCount : Nat

/-- The `for blog_url in blog_urls` loop of `analyze_sitemap`
(`main.py:309-355`): `i` is the index of the next candidate, `rem` the
number of candidates left, `err` the running `error_count`, `acc` the
accumulated `analyzed_blogs`. On `recorded` the counter resets to 0 and
the row is appended; on `skipped` the counter is incremented; both paths
then reach the `asyncio.sleep(2)` pause inside the `try` block. On
`failed` control is in the `except` block: the counter is incremented,
the loop breaks when the incremented counter reaches `max_errors = 3`
(the only budget check in the code), and the `continue` skips the pause. -/
def loopGo {α : Type} (env : Nat → CandOutcome α) :
    Nat → Nat → Nat → List α → LoopResult α
  | _, 0, err, acc => ⟨acc, [], err⟩
  | i, rem + 1, err, acc =>
    match env i with
    | .recorded r =>
      let t := loopGo env (i + 1) rem 0 (acc ++ [r])
      ⟨t.records, .start i :: .done i 0 :: .sleep 2 :: t.events, t.errorCount⟩
    | .skipped =>
      let t := loopGo env (i + 1) rem (err + 1) acc
      ⟨t.records, .start i :: .done i (err + 1) :: .sleep 2 :: t.events, t.errorCount⟩
    | .failed =>
      if 3 ≤ err + 1 then ⟨acc, [.start i, .done i (err + 1)], err + 1⟩
      else
        let t := loopGo env (i + 1) rem (err + 1) acc
        ⟨t.records, .start i :: .done i (err + 1) :: t.events, t.errorCount⟩

/-- The candidate loop of `analyze_sitemap` over `n` candidates, started
with `error_count = 0` and an empty `analyzed_blogs` (`main.py:305-307`). -/
def analyzeLoop {α : Type} (env : Nat → CandOutcome α) (n : Nat) : LoopResult α :=
  loopGo env 0 n 0 []

/-- Reference value of the consecutive-error counter after the first `i`
candidates have been processed: reset to 0 by a `recorded` outcome,
incremented by `skipped` and by `failed` outcomes. -/
def errBefore {α : Type} (env : Nat → CandOutcome α) : Nat → Nat
  | 0 => 0
  | i + 1 =>
    match env i with
    | .recorded _ => 0
    | _ => errBefore env i + 1

/-- Whether a candidate outcome is `failed`. -/
def isFailedOutcome {α : Type} : CandOutcome α → Bool
  | .failed => true
  | _ => false

/-- Whether the loop breaks right after candidate `i`: only a `failed`
outcome is checked against the budget, with the counter already
incremented. -/
def stopAfter {α : Type} (env : Nat → CandOutcome α) (i : Nat) : Bool :=
  isFailedOutcome (env i) && decide (3 ≤ errBefore env (i + 1))

/-- The indices of the candidates the loop processes when it starts at
candidate `i` with `rem` candidates left. -/
def procList {α : Type} (env : Nat → CandOutcome α) : Nat → Nat → List Nat
  | _, 0 => []
  | i, rem + 1 => i :: (if stopAfter env i then [] else procList env (i + 1) rem)

/-- The record candidate `i` contributes, if any. -/
def rowOf {α : Type} (env : Nat → CandOutcome α) (i : Nat) : Option α :=
  match env i with
  | .recorded r => some r
  | _ => none

/-- The events candidate `i` contributes: begin, end with the updated
counter, and the 2-second pause except after a `failed` outcome. -/
def evOf {α : Type} (env : Nat → CandOutcome α) (i : Nat) : List LoopEvent :=
  [.start i, .done i (errBefore env (i + 1))] ++
    (if isFailedOutcome (env i) then [] else [.sleep 2])

/-! ## The retry loop of `fetch_url_with_retry` (ResilientFetcher) -/

/-- Outcome of one fetch attempt inside `fetch_url_with_retry`
(`main.py:184-187`), abstracting `httpx`: `response st text` is a
completed HTTP exchange with status `st` (a non-2xx status makes
`raise_for_status` raise `httpx.HTTPStatusError`), `timeout` is an
`httpx.TimeoutException`, and `transportError m` any other exception. -/
inductive AttemptRes where
  | response (status : Nat) (text : List Char)
  | timeout
  | transportError (msg : List Char)
deriving DecidableEq

/-- A FastAPI `HTTPException` value: status code and detail message. -/
structure HTTPExc where
  statusCode : Nat
  detail : List Char
deriving DecidableEq

/-- The parts of an `httpx.Response` the embedded code uses. -/
structure HttpResponse where
  status : Nat
  text : List Char
deriving DecidableEq

/-- Observable events of the retry loop: the initial log of the cleaned
URL (`main.py:180`), the start of attempt `i`, and the
`asyncio.sleep(1)` pause between attempts (`main.py:204`). -/
inductive FetchEvent where
  | fetching (url : List Char)
  | attempt (i : Nat)
  | sleep (secs : Nat)
deriving DecidableEq

/-- Whether a status code counts as success for `raise_for_status`. -/
def is2xx (st : Nat) : Bool := decide (200 ≤ st) && decide (st < 300)

/-- Decimal representation of a natural number, as Python `str`. -/
def natChars (n : Nat) : List Char := (Nat.repr n).toList

/-- The `HTTPException` raised when the final attempt fails
(`main.py:188-202`): status failures keep the upstream status code and
embed it in the message, timeouts map to 504, anything else to 500. -/
def excOfAttempt : AttemptRes → HTTPExc
  | .response st tx => ⟨st, "HTTP error: ".toList ++ natChars st ++ " - ".toList ++ tx⟩
  | .timeout => ⟨504, "Request timed out".toList⟩
  | .transportError m => ⟨500, "Error fetching URL: ".toList ++ m⟩

/-- Whether an attempt outcome makes the loop body raise: any transport
error, timeout, or non-2xx status. -/
def isFailAttempt : AttemptRes → Bool
  | .response st _ => !is2xx st
  | _ => true

/-- The `for attempt in range(max_retries)` loop of `fetch_url_with_retry`
(`main.py:182-204`): `a` is the current attempt index, `rem` the number
of loop iterations left. A 2xx response returns immediately; a failing
attempt raises the corresponding `HTTPException` when
`attempt == max_retries - 1` and otherwise reaches the
`asyncio.sleep(1)` at the end of the loop body before the next attempt.
Falling off the loop returns Python `None`, modelled `.ok none`. -/
def fetchAux (env : Nat → AttemptRes) (maxRetries : Nat) :
    Nat → Nat → List FetchEvent × Except HTTPExc (Option HttpResponse)
  | _, 0 => ([], .ok none)
  | a, rem + 1 =>
    match env a with
    | .response st tx =>
      if is2xx st then ([.attempt a], .ok (some ⟨st, tx⟩))
      else if a = maxRetries - 1 then
        ([.attempt a], .error (excOfAttempt (.response st tx)))
      else
        let t := fetchAux env maxRetries (a + 1) rem
        (.attempt a :: .sleep 1 :: t.1, t.2)
    | .timeout =>
      if a = maxRetries - 1 then ([.attempt a], .error (excOfAttempt .timeout))
      else
        let t := fetchAux env maxRetries (a + 1) rem
        (.attempt a :: .sleep 1 :: t.1, t.2)
    | .transportError m =>
      if a = maxRetries - 1 then ([.attempt a], .error (excOfAttempt (.transportError m)))
      else
        let t := fetchAux env maxRetries (a + 1) rem
        (.attempt a :: .sleep 1 :: t.1, t.2)

/-- `fetch_url_with_retry` from `main.py:177-204`: normalize the URL with
`clean_url`, log it, then run the retry loop. The attempt environment
`env` gives the outcome of each network attempt for the cleaned URL. -/
def fetch_url_with_retry (url : List Char) (env : Nat → AttemptRes) (maxRetries : Nat) :
    List FetchEvent × Except HTTPExc (Option HttpResponse) :=
  let t := fetchAux env maxRetries 0 maxRetries
  (.fetching (clean_url url) :: t.1, t.2)

/-! ## The HTML document model for ContentExtractor -/

/-- A parsed HTML node as produced by `BeautifulSoup(html, "html.parser")`:
an element with tag name, attribute list and children, or a text node.
The embedding works on parsed documents (`html.parser` inserts no
implicit `html`/`body` elements). -/
inductive HtmlNode where
  | elem (tag : List Char) (attrs : List (List Char × List Char)) (children : List HtmlNode)
  | text (s : List Char)

/-- A parsed document: the top-level nodes of the soup. -/
abbrev Soup := List HtmlNode

/-- First value bound to attribute `k`, as `Tag.get(k)`. -/
def attrLookup (k : List Char) : List (List Char × List Char) → Option (List Char)
  | [] => none
  | (k2, v) :: rest => if k2 = k then some v else attrLookup k rest

/-- BeautifulSoup attribute criterion: the multi-valued `class` attribute
matches a string that equals one of its whitespace-separated classes;
every other attribute must equal the value exactly. An absent attribute
never matches. -/
def attrMatch (ats : List (List Char × List Char)) (k v : List Char) : Bool :=
  match attrLookup k ats with
  | none => false
  | some w => if k = "class".toList then (pySplit w).contains v else w == v

/-- Whether an element with tag `tg` and attributes `ats` matches the
criteria of `soup.find(t, crit)`: the tag name must equal `t` and every
criterion pair must match. -/
def matchesSel (t : List Char) (crit : List (List Char × List Char))
    (tg : List Char) (ats : List (List Char × List Char)) : Bool :=
  tg == t && crit.all fun kv => attrMatch ats kv.1 kv.2

mutual

/-- `find` on a single node: the node itself when it is a matching
element, else the first match among its descendants, in document
(preorder) order. -/
def findInNode (t : List Char) (crit : List (List Char × List Char)) :
    HtmlNode → Option HtmlNode
  | .text _ => none
  | .elem tg ats ch =>
    if matchesSel t crit tg ats then some (.elem tg ats ch) else findInForest t crit ch

/-- `soup.find(t, crit)`: first matching element of the document in
preorder. -/
def findInForest (t : List Char) (crit : List (List Char × List Char)) :
    List HtmlNode → Option HtmlNode
  | [] => none
  | n :: ns =>
    match findInNode t crit n with
    | some m => some m
    | none => findInForest t crit ns

end

/-- BeautifulSoup `.string`: defined only when the node has exactly one
child; a text child is returned directly, a single element child is
recursed into; zero or several children give `None`. -/
def nodeString : HtmlNode → Option (List Char)
  | .text s => some s
  | .elem _ _ [c] => nodeString c
  | .elem _ _ _ => none

mutual

/-- All text-node descendants of a node, in document order. -/
def allStrings : HtmlNode → List (List Char)
  | .text s => [s]
  | .elem _ _ ch => allStringsF ch

/-- All text-node descendants of a forest, in document order. -/
def allStringsF : List HtmlNode → List (List Char)
  | [] => []
  | n :: ns => allStrings n ++ allStringsF ns

end

/-- `tag.get_text(separator=" ", strip=True)`: each descendant string is
stripped, empty results are dropped, and the remainder is joined with
single spaces. -/
def getTextStrip (n : HtmlNode) : List Char :=
  joinWith [' '] (((allStrings n).map pyStrip).filter fun s => !s.isEmpty)

/-- The non-content tags `extract_content_from_html` removes from a
matched container (`main.py:264`). -/
def bannedTags : List (List Char) :=
  ["script".toList, "style".toList, "nav".toList, "header".toList, "footer".toList]

mutual

/-- Effect of `for unwanted in main_content.find_all([...]):
unwanted.decompose()` on a container (`main.py:263-265`): every
descendant element whose tag is banned is removed with its subtree. -/
def pruneBanned : HtmlNode → HtmlNode
  | .text s => .text s
  | .elem tg ats ch => .elem tg ats (pruneBannedF ch)

/-- `pruneBanned` on a forest. -/
def pruneBannedF : List HtmlNode → List HtmlNode
  | [] => []
  | .text s :: ns => .text s :: pruneBannedF ns
  | .elem tg ats ch :: ns =>
    if bannedTags.contains tg then pruneBannedF ns
    else .elem tg ats (pruneBannedF ch) :: pruneBannedF ns

end

mutual

/-- `soup.find(t, crit)` combined with the in-place `decompose` of the
banned descendants of the match: the pruned matched element together
with this node after the in-place mutation, or `none` when nothing
matches here. -/
def pruneInNode (t : List Char) (crit : List (List Char × List Char)) :
    HtmlNode → Option (HtmlNode × HtmlNode)
  | .text _ => none
  | .elem tg ats ch =>
    if matchesSel t crit tg ats then
      some (.elem tg ats (pruneBannedF ch), .elem tg ats (pruneBannedF ch))
    else
      match pruneInForest t crit ch with
      | some (m, ch2) => some (m, .elem tg ats ch2)
      | none => none

/-- `pruneInNode` over the document: the first match in preorder is
pruned in place. -/
def pruneInForest (t : List Char) (crit : List (List Char × List Char)) :
    List HtmlNode → Option (HtmlNode × List HtmlNode)
  | [] => none
  | n :: ns =>
    match pruneInNode t crit n with
    | some (m, n2) => some (m, n2 :: ns)
    | none =>
      match pruneInForest t crit ns with
      | some (m, ns2) => some (m, n :: ns2)
      | none => none

end

/-- The prioritized content selectors of `extract_content_from_html`
(`main.py:249-258`). Note the attribute key of the `div` entries: the
Python code passes the dict `{"class_": ...}` as the positional `attrs`
argument of `find`, and a dict key is matched verbatim as an HTML
attribute name (the `class_` to `class` translation happens only for
keyword arguments), so these selectors look for a literal attribute
named `class_`. -/
def content_selectors : List (List Char × List (List Char × List Char)) :=
  [("article".toList, []),
   ("main".toList, []),
   ("div".toList, [("class_".toList, "content".toList)]),
   ("div".toList, [("class_".toList, "post-content".toList)]),
   ("div".toList, [("class_".toList, "blog-post".toList)]),
   ("div".toList, [("class_".toList, "entry-content".toList)]),
   ("div".toList, [("id".toList, "content".toList)]),
   ("div".toList, [("class_".toList, "article-content".toList)])]

/-- The `for tag, attrs in content_selectors` loop (`main.py:260-269`):
the first selector with a match wins (`break`), its container is pruned
in place and its text returned, together with the mutated soup. -/
def trySelectors : List (List Char × List (List Char × List Char)) → Soup →
    Option (List Char × Soup)
  | [], _ => none
  | (t, crit) :: rest, soup =>
    match pruneInForest t crit soup with
    | some (m, soup2) => some (getTextStrip m, soup2)
    | none => trySelectors rest soup

/-- `extract_content_from_html` from `main.py:244-279`: try the selectors
in order; when the resulting text is empty (no selector matched, or the
matched container had no text) fall back to the full text of
`soup.body` on the possibly mutated soup, without any pruning; finally
collapse whitespace and count the whitespace-delimited tokens. -/
def extract_content_from_html (soup : Soup) : List Char × Nat :=
  let step :=
    match trySelectors content_selectors soup with
    | some (content, soup2) => (content, soup2)
    | none => (([] : List Char), soup)
  let content :=
    if step.1.isEmpty then
      match findInForest "body".toList [] step.2 with
      | some b => getTextStrip b
      | none => step.1
    else step.1
  let content2 := collapseWs content
  (content2, (pySplit content2).length)

/-- `Tag.get("content", "")` on a found meta tag. -/
def tagGetContent : HtmlNode → List Char
  | .elem _ ats _ => (attrLookup "content".toList ats).getD []
  | .text _ => []

/-- `extract_meta_description` from `main.py:56-60`: the `content` of a
`meta` tag named `description`, else of an Open-Graph
`og:description` tag, else the empty string. -/
def extract_meta_description (soup : Soup) : List Char :=
  match findInForest "meta".toList [("name".toList, "description".toList)] soup with
  | some m => tagGetContent m
  | none =>
    match findInForest "meta".toList [("property".toList, "og:description".toList)] soup with
    | some m => tagGetContent m
    | none => []

/-- The one Python exception kind the embedded extraction step raises. -/
inductive PyError where
  | attributeError
deriving DecidableEq

/-- The per-page extraction result (title, current meta description, body
text, word count). -/
structure ExtractedPage where
  title : List Char
  metaDescription : List Char
  content : List Char
  wordCount : Nat
deriving DecidableEq

/-- The extraction step of each loop iteration (`main.py:313-323`):
`title = soup.title.string if soup.title else "No title"` followed by
`title = " ".join(title.split())`, then the meta description and
`extract_content_from_html`. When a `title` element is present but its
`.string` is `None` (empty or multi-child title element), the call
`title.split()` raises `AttributeError` on `None`. -/
def extract_page (soup : Soup) : Except PyError ExtractedPage :=
  match findInForest "title".toList [] soup with
  | some tEl =>
    match nodeString tEl with
    | none => .error .attributeError
    | some s =>
      .ok ⟨collapseWs s, extract_meta_description soup,
        (extract_content_from_html soup).1, (extract_content_from_html soup).2⟩
  | none =>
    .ok ⟨collapseWs "No title".toList, extract_meta_description soup,
      (extract_content_from_html soup).1, (extract_content_from_html soup).2⟩

/-! ## The sitemap XML model for SitemapResolver -/

/-- A parsed XML element as produced by `xml.etree.ElementTree`: the tag
(namespace-qualified tags carry the namespace URI in braces, Clark
notation), the text before the first child (`None` for an empty
element), and the child elements. -/
inductive XmlElem where
  | mk (tag : List Char) (text : Option (List Char)) (children : List XmlElem)

/-- The tag of an element. -/
def XmlElem.tag : XmlElem → List Char
  | .mk t _ _ => t

/-- The text of an element. -/
def XmlElem.text : XmlElem → Option (List Char)
  | .mk _ tx _ => tx

mutual

/-- All proper descendants of an element, in document order. -/
def descAll : XmlElem → List XmlElem
  | .mk _ _ ch => descAllF ch

/-- All elements of a forest and their descendants, in document order. -/
def descAllF : List XmlElem → List XmlElem
  | [] => []
  | e :: es => e :: descAll e ++ descAllF es

end

/-- `root.findall(".//tag")`: all descendants with the given tag, in
document order. -/
def findallDesc (t : List Char) (root : XmlElem) : List XmlElem :=
  (descAll root).filter fun e => e.tag == t

/-- The Clark-notation prefix of the sitemap namespace
`http://www.sitemaps.org/schemas/sitemap/0.9` (`main.py:214-216`). -/
def nsBraced : List Char :=
  "\x7bhttp://www.sitemaps.org/schemas/sitemap/0.9\x7d".toList

/-- The tag the namespaced path `.//ns:loc` resolves to. -/
def nsLocTag : List Char := nsBraced ++ "loc".toList

/-- The post-path marker `/post/` (`main.py:225`). -/
def postMarker : List Char := "/post/".toList

/-- Input of `parse_sitemap_content` after the `ET.fromstring` step:
either the parsed XML tree (the body is valid XML) or the raw body text
(an `ET.ParseError` was raised and the plain-text branch runs). -/
inductive SitemapContent where
  | xml (root : XmlElem)
  | plain (raw : List Char)

/-- Worker for `list(dict.fromkeys(l))` with the set of already seen
values. -/
def dedupFirstGo (seen : List (List Char)) : List (List Char) → List (List Char)
  | [] => []
  | x :: xs =>
    if seen.contains x then dedupFirstGo seen xs
    else x :: dedupFirstGo (x :: seen) xs

/-- `list(dict.fromkeys(l))` (`main.py:242`): remove duplicates keeping
the first occurrence of each value. -/
def dedupFirst (l : List (List Char)) : List (List Char) := dedupFirstGo [] l

/-- The per-location body of the XML branch (`main.py:224-228`): a
location is accepted only when its text is present, non-empty and
contains the post marker; it is normalized with `clean_url` and kept
only when the normalized form is non-empty. -/
def locAccept (tx : Option (List Char)) : Option (List Char) :=
  match tx with
  | none => none
  | some s =>
    if s.isEmpty then none
    else if hasSub postMarker s then
      if (clean_url s).isEmpty then none else some (clean_url s)
    else none

/-- `parse_sitemap_content` from `main.py:206-242`: on valid XML look for
`loc` elements first under the sitemap namespace, then (when none were
found) without any namespace; on a parse error fall back to scanning the
whitespace-separated tokens of the raw text; in both branches filter to
post-marker locations, normalize, drop empty results, and finally
deduplicate preserving first-seen order. -/
def parse_sitemap_content : SitemapContent → List (List Char)
  | .xml root =>
    let urls := findallDesc nsLocTag root
    let urls2 := if urls.isEmpty then findallDesc "loc".toList root else urls
    dedupFirst (urls2.filterMap fun u => locAccept u.text)
  | .plain raw =>
    dedupFirst ((pySplit (pyStrip raw)).filterMap fun line =>
      locAccept (some (pyStrip line)))

/-- Modelled from the spec sentence for C9 (refinement reference): exactly
the distinct, order-preserved `loc` values (the texts of the namespaced
`loc` elements) whose text contains the post marker, each normalized. -/
def sitemapSpecLocs (root : XmlElem) : List (List Char) :=
  dedupFirst ((((findallDesc nsLocTag root).filterMap XmlElem.text).filter
    fun s => hasSub postMarker s).map clean_url)

/-! ## The `analyze_sitemap` operation -/

/-- Python `str(HTTPException)`: `"{status_code}: {detail}"`. -/
def strHTTPExc (e : HTTPExc) : List Char :=
  natChars e.statusCode ++ ": ".toList ++ e.detail

/-- The success payload of `analyze_sitemap` (`main.py:391-395`). -/
structure AnalyzeOk where
  status : List Char
  analyzedCount : Nat
  excelPath : List Char
deriving DecidableEq

/-- `analyze_sitemap` from `main.py:281-403`: the outer `try` checks the
URL scheme, raising `HTTPException(400, ...)` otherwise; the inner `try`
fetches the sitemap (outcome `fetchSitemap`), parses it (`parsed` is how
the fetched body parses), raises `HTTPException(404, ...)` when no blog
URL was found, runs the candidate loop, raises `HTTPException(404, ...)`
when nothing was analyzed, and otherwise returns the success payload
(the spreadsheet writing is an external sink assumed not to raise).
Both `except Exception` blocks also catch the `HTTPException` values
raised inside their own `try`, re-raising them wrapped with status 500:
the inner one as `Error processing sitemap: str(e)` and the outer one as
`str(e)`. -/
def analyze_sitemap {α : Type} (url : List Char)
    (fetchSitemap : Except HTTPExc Unit) (parsed : SitemapContent)
    (candEnv : Nat → CandOutcome α) : Except HTTPExc AnalyzeOk :=
  let outerBody : Except HTTPExc AnalyzeOk :=
    if (hasPfx "http://".toList url || hasPfx "https://".toList url) = false then
      .error ⟨400, "Invalid sitemap URL. Must start with http:// or https://".toList⟩
    else
      let inner : Except HTTPExc AnalyzeOk :=
        match fetchSitemap with
        | .error e => .error e
        | .ok _ =>
          let blogUrls := parse_sitemap_content parsed
          if blogUrls.isEmpty then
            .error ⟨404, "No blog posts found in sitemap".toList⟩
          else
            let r := analyzeLoop candEnv blogUrls.length
            if r.records.isEmpty then
              .error ⟨404, "No blogs could be analyzed successfully".toList⟩
            else .ok ⟨"success".toList, r.records.length, "blog_analysis.xlsx".toList⟩
      match inner with
      | .ok v => .ok v
      | .error e => .error ⟨500, "Error processing sitemap: ".toList ++ strHTTPExc e⟩
  match outerBody with
  | .ok v => .ok v
  | .error e => .error ⟨500, strHTTPExc e⟩

/-- Concrete document for claim C8: a body containing a `nav` element and
a `div` with `class="content"`. -/
def c8Soup : Soup :=
  [.elem "html".toList []
    [.elem "body".toList []
      [.elem "nav".toList [] [.text "MENU".toList],
       .elem "div".toList [("class".toList, "content".toList)]
         [.text "hello".toList]]]]

/-- Concrete body element for claim C10: it contains a `script` element
and a paragraph. -/
def c10Body : HtmlNode :=
  .elem "body".toList []
    [.elem "script".toList [] [.text "SCRIPTTEXT".toList],
     .elem "p".toList [] [.text "hello".toList]]

/-- Concrete document for claim C10. -/
def c10Soup : Soup := [.elem "html".toList [] [c10Body]]

/-- Concrete sitemap tree for claim C9: four namespaced `url`/`loc`
entries, one duplicated, one without the post marker, one whose text
needs normalization. -/
def c9Root : XmlElem :=
  .mk (nsBraced ++ "urlset".toList) none
    [.mk (nsBraced ++ "url".toList) none
       [.mk nsLocTag (some "http://e.com/post/a".toList) []],
     .mk (nsBraced ++ "url".toList) none
       [.mk nsLocTag (some "http://e.com/post/a".toList) []],
     .mk (nsBraced ++ "url".toList) none
       [.mk nsLocTag (some "http://e.com/about".toList) []],
     .mk (nsBraced ++ "url".toList) none
       [.mk nsLocTag (some "http://e.com/post/b c".toList) []]]

/-! ### Lemmas about the whitespace splitter -/

theorem splitWsGo_tokens_nows (l : List Char) :
    ∀ acc, (∀ c ∈ acc, pyIsSpace c = false) →
      ∀ t ∈ splitWsGo l acc, ∀ c ∈ t, pyIsSpace c = false := by
  induction l with
  | nil =>
    intro acc hacc t ht c hc
    by_cases h : acc = [] <;> simp [splitWsGo, h] at ht
    subst ht
    exact hacc c (by simpa using hc)
  | cons d ds ih =>
    intro acc hacc t ht c hc
    by_cases hs : pyIsSpace d
    · by_cases h : acc = []
      · simp only [splitWsGo, hs, if_true, h, if_pos rfl] at ht
        exact ih [] (by simp) t ht c hc
      · simp only [splitWsGo, hs, if_true, if_neg h, List.mem_cons] at ht
        rcases ht with rfl | ht
        · exact hacc c (by simpa using hc)
        · exact ih [] (by simp) t ht c hc
    · simp only [splitWsGo, if_neg hs] at ht
      refine ih (d :: acc) ?_ t ht c hc
      intro e he
      rcases List.mem_cons.mp he with rfl | he
      · simpa using hs
      · exact hacc e he

theorem splitWsGo_subset (l : List Char) :
    ∀ acc, ∀ t ∈ splitWsGo l acc, ∀ c ∈ t, c ∈ l ∨ c ∈ acc := by
  induction l with
  | nil =>
    intro acc t ht c hc
    by_cases h : acc = [] <;> simp [splitWsGo, h] at ht
    subst ht
    exact Or.inr (by simpa using hc)
  | cons d ds ih =>
    intro acc t ht c hc
    by_cases hs : pyIsSpace d
    · by_cases h : acc = []
      · simp only [splitWsGo, hs, if_true, h, if_pos rfl] at ht
        rcases ih [] t ht c hc with h1 | h1
        · exact Or.inl (List.mem_cons_of_mem d h1)
        · simp at h1
      · simp only [splitWsGo, hs, if_true, if_neg h, List.mem_cons] at ht
        rcases ht with rfl | ht
        · exact Or.inr (by simpa using hc)
        · rcases ih [] t ht c hc with h1 | h1
          · exact Or.inl (List.mem_cons_of_mem d h1)
          · simp at h1
    · simp only [splitWsGo, if_neg hs] at ht
      rcases ih (d :: acc) t ht c hc with h1 | h1
      · exact Or.inl (List.mem_cons_of_mem d h1)
      · rcases List.mem_cons.mp h1 with rfl | h1
        · exact Or.inl (List.mem_cons_self _ _)
        · exact Or.inr h1

theorem splitWsGo_mem (l : List Char) :
    ∀ acc c, ((c ∈ l ∧ pyIsSpace c = false) ∨ c ∈ acc) →
      ∃ t ∈ splitWsGo l acc, c ∈ t := by
  induction l with
  | nil =>
    intro acc c hc
    rcases hc with ⟨hc, _⟩ | hc
    · simp at hc
    · have h : acc ≠ [] := by rintro rfl; simp at hc
      exact ⟨acc.reverse, by simp [splitWsGo, h], by simpa using hc⟩
  | cons d ds ih =>
    intro acc c hc
    by_cases hs : pyIsSpace d
    · have hc2 : (c ∈ ds ∧ pyIsSpace c = false) ∨ c ∈ acc := by
        rcases hc with ⟨hm, hn⟩ | hm
        · rcases List.mem_cons.mp hm with rfl | hm
          · rw [hs] at hn; cases hn
          · exact Or.inl ⟨hm, hn⟩
        · exact Or.inr hm
      by_cases h : acc = []
      · subst h
        rcases hc2 with hc2 | hc2
        · have := ih [] c (Or.inl hc2)
          simpa [splitWsGo, hs] using this
        · simp at hc2
      · simp only [splitWsGo, hs, if_true, if_neg h]
        rcases hc2 with hc2 | hc2
        · obtain ⟨t, ht, hct⟩ := ih [] c (Or.inl hc2)
          exact ⟨t, List.mem_cons_of_mem _ ht, hct⟩
        · exact ⟨acc.reverse, List.mem_cons_self _ _, by simpa using hc2⟩
    · simp only [splitWsGo, if_neg hs]
      refine ih (d :: acc) c ?_
      rcases hc with ⟨hm, hn⟩ | hm
      · rcases List.mem_cons.mp hm with rfl | hm
        · exact Or.inr (List.mem_cons_self _ _)
        · exact Or.inl ⟨hm, hn⟩
      · exact Or.inr (List.mem_cons_of_mem _ hm)

theorem splitWsGo_of_nows (l : List Char) :
    ∀ acc, (∀ c ∈ l, pyIsSpace c = false) →
      splitWsGo l acc = if acc.reverse ++ l = [] then [] else [acc.reverse ++ l] := by
  induction l with
  | nil =>
    intro acc _
    by_cases h : acc = [] <;> simp [splitWsGo, h]
  | cons d ds ih =>
    intro acc h
    have hd : pyIsSpace d = false := h d (List.mem_cons_self _ _)
    have hrec := ih (d :: acc) (fun c hc => h c (List.mem_cons_of_mem d hc))
    simp only [splitWsGo, hd, Bool.false_eq_true, if_false] at hrec ⊢
    rw [hrec]
    have he : (d :: acc).reverse ++ ds = acc.reverse ++ d :: ds := by simp
    rw [he]

/-! ### Lemmas about join -/

theorem mem_joinWith (sep : List Char) :
    ∀ ts c, c ∈ joinWith sep ts → c ∈ sep ∨ ∃ t ∈ ts, c ∈ t := by
  intro ts
  induction ts with
  | nil => intro c hc; simp [joinWith] at hc
  | cons t ts ih =>
    intro c hc
    cases ts with
    | nil =>
      simp only [joinWith] at hc
      exact Or.inr ⟨t, List.mem_cons_self _ _, hc⟩
    | cons t2 ts2 =>
      simp only [joinWith, List.append_assoc, List.mem_append] at hc
      rcases hc with hc | hc | hc
      · exact Or.inr ⟨t, List.mem_cons_self _ _, hc⟩
      · exact Or.inl hc
      · rcases ih c hc with h | ⟨u, hu, hcu⟩
        · exact Or.inl h
        · exact Or.inr ⟨u, List.mem_cons_of_mem _ hu, hcu⟩

theorem mem_joinWith_of (sep : List Char) :
    ∀ ts t, t ∈ ts → ∀ c ∈ t, c ∈ joinWith sep ts := by
  intro ts
  induction ts with
  | nil => intro t ht; simp at ht
  | cons u ts ih =>
    intro t ht c hc
    cases ts with
    | nil =>
      rcases List.mem_cons.mp ht with rfl | ht
      · simpa [joinWith] using hc
      · simp at ht
    | cons u2 ts2 =>
      simp only [joinWith, List.append_assoc, List.mem_append]
      rcases List.mem_cons.mp ht with rfl | ht
      · exact Or.inl hc
      · exact Or.inr (Or.inr (ih t ht c hc))

/-! ### Lemmas about `collapseWs` -/

theorem collapseWs_char (l : List Char) (c : Char) (hc : c ∈ collapseWs l) :
    c = ' ' ∨ (c ∈ l ∧ pyIsSpace c = false) := by
  unfold collapseWs pySplit at hc
  rcases mem_joinWith _ _ _ hc with h | ⟨t, ht, hct⟩
  · left; simpa using h
  · right
    refine ⟨?_, splitWsGo_tokens_nows l [] (by simp) t ht c hct⟩
    rcases splitWsGo_subset l [] t ht c hct with h | h
    · exact h
    · simp at h

theorem mem_collapseWs (l : List Char) (c : Char) (h1 : c ∈ l) (h2 : pyIsSpace c = false) :
    c ∈ collapseWs l := by
  obtain ⟨t, ht, hct⟩ := splitWsGo_mem l [] c (Or.inl ⟨h1, h2⟩)
  exact mem_joinWith_of _ _ t ht c hct

theorem collapseWs_of_nows (l : List Char) (h : ∀ c ∈ l, pyIsSpace c = false) :
    collapseWs l = l := by
  unfold collapseWs pySplit
  rw [splitWsGo_of_nows l [] h]
  by_cases hl : l = []
  · simp [hl, joinWith]
  · simp only [List.reverse_nil, List.nil_append, if_neg hl]
    rfl

/-! ### Lemmas about the prefix test and the first-occurrence splitter -/

theorem hasPfx_self_append (p b : List Char) : hasPfx p (p ++ b) = true := by
  induction p with
  | nil => rfl
  | cons q ps ih => simp [hasPfx, ih]

theorem hasPfx_drop (p : List Char) :
    ∀ l, hasPfx p l = true → l = p ++ l.drop p.length := by
  induction p with
  | nil => intro l _; simp
  | cons q ps ih =>
    intro l h
    cases l with
    | nil => simp [hasPfx] at h
    | cons c cs =>
      simp only [hasPfx, Bool.and_eq_true, beq_iff_eq] at h
      obtain ⟨rfl, h2⟩ := h
      have := ih cs h2
      calc q :: cs = q :: (ps ++ cs.drop ps.length) := by rw [← this]
        _ = (q :: ps) ++ (q :: cs).drop (q :: ps).length := by simp

theorem hasPfx_append_left (p : List Char) :
    ∀ a b b2 : List Char, p.length ≤ a.length →
      hasPfx p (a ++ b) = hasPfx p (a ++ b2) := by
  induction p with
  | nil => intro a b b2 _; rfl
  | cons q ps ih =>
    intro a b b2 h
    cases a with
    | nil => simp at h
    | cons x xs =>
      simp only [List.cons_append, hasPfx, List.append_eq]
      rw [ih xs b b2 (by simpa using h)]

theorem splitOnMarker_eq_append (pat : List Char) :
    ∀ l a b, splitOnMarker pat l = some (a, b) → l = a ++ pat ++ b := by
  intro l
  induction l with
  | nil =>
    intro a b h
    simp only [splitOnMarker] at h
    split at h
    · next hp =>
      cases pat with
      | nil =>
        simp at h
        obtain ⟨rfl, rfl⟩ := h
        rfl
      | cons q ps => simp [hasPfx] at hp
    · simp at h
  | cons c cs ih =>
    intro a b h
    simp only [splitOnMarker] at h
    split at h
    · next hp =>
      simp only [Option.some.injEq, Prod.mk.injEq] at h
      obtain ⟨rfl, rfl⟩ := h
      simpa using hasPfx_drop pat (c :: cs) hp
    · next hp =>
      cases hin : splitOnMarker pat cs with
      | some ab =>
        obtain ⟨a0, b0⟩ := ab
        rw [hin] at h
        simp only [Option.some.injEq, Prod.mk.injEq] at h
        obtain ⟨rfl, rfl⟩ := h
        have hcs := ih a0 b0 hin
        simp [hcs]
      | none => rw [hin] at h; cases h

theorem splitOnMarker_self (pat b : List Char) :
    splitOnMarker pat (pat ++ b) = some ([], b) := by
  cases pat with
  | nil =>
    cases b with
    | nil => simp [splitOnMarker, hasPfx]
    | cons c cs => simp [splitOnMarker, hasPfx]
  | cons q ps =>
    have h1 : hasPfx (q :: ps) ((q :: ps) ++ b) = true := hasPfx_self_append _ _
    simp only [List.cons_append] at h1 ⊢
    simp only [splitOnMarker, h1, if_true]
    congr 1
    congr 1
    calc (q :: (ps ++ b)).drop (q :: ps).length = (ps ++ b).drop ps.length := by simp
      _ = b := List.drop_left ps b

theorem splitOnMarker_shift (pat : List Char) :
    ∀ a b b2, splitOnMarker pat (a ++ pat ++ b) = some (a, b) →
      splitOnMarker pat (a ++ pat ++ b2) = some (a, b2) := by
  intro a
  induction a with
  | nil => intro b b2 _; simpa using splitOnMarker_self pat b2
  | cons c as ih =>
    intro b b2 h
    simp only [List.cons_append, List.append_assoc] at h ⊢
    have hp : hasPfx pat (c :: (as ++ (pat ++ b))) = false := by
      by_contra hcon
      have hp2 : hasPfx pat (c :: (as ++ (pat ++ b))) = true := by
        cases hx : hasPfx pat (c :: (as ++ (pat ++ b)))
        · exact absurd hx hcon
        · rfl
      simp only [splitOnMarker, hp2, if_true, Option.some.injEq, Prod.mk.injEq] at h
      exact absurd h.1.symm (List.cons_ne_nil c as)
    have hshape : ∀ t : List Char, c :: (as ++ (pat ++ t)) = ((c :: as) ++ pat) ++ t := by
      intro t; simp
    have hp2 : hasPfx pat (c :: (as ++ (pat ++ b2))) = false := by
      rw [hshape b2, ← hasPfx_append_left pat ((c :: as) ++ pat) b b2 (by simp; omega),
        ← hshape b]
      exact hp
    simp only [splitOnMarker, hp, Bool.false_eq_true, if_false] at h
    simp only [splitOnMarker, hp2, Bool.false_eq_true, if_false]
    cases hin : splitOnMarker pat (as ++ (pat ++ b)) with
    | none => rw [hin] at h; cases h
    | some ab =>
      obtain ⟨a0, b0⟩ := ab
      rw [hin] at h
      simp only [Option.some.injEq, Prod.mk.injEq, List.cons.injEq, true_and] at h
      obtain ⟨rfl, rfl⟩ := h
      have hin2 : splitOnMarker pat (a0 ++ pat ++ b0) = some (a0, b0) := by
        simpa [List.append_assoc] using hin
      have hfin : splitOnMarker pat (a0 ++ (pat ++ b2)) = some (a0, b2) := by
        have := ih b0 b2 hin2
        simpa [List.append_assoc] using this
      rw [hfin]

/-! ### Lemmas about percent-encoding -/

theorem hexDigitChar_mem (k : Nat) : hexDigitChar k ∈ "0123456789ABCDEF".toList := by
  unfold hexDigitChar
  rcases Nat.lt_or_ge k 16 with h | h
  · interval_cases k <;> decide
  · have hlen : ("0123456789ABCDEF".toList).length ≤ k := by
      simpa using h
    rw [List.getD_eq_default _ _ hlen]
    decide

theorem hexlist_chars :
    ∀ c ∈ "0123456789ABCDEF".toList, 32 ≤ c.toNat ∧ pyIsSpace c = false := by decide

theorem pctEncode_chars (b : Nat) (c : Char) (hc : c ∈ pctEncode b) :
    32 ≤ c.toNat ∧ pyIsSpace c = false := by
  unfold pctEncode at hc
  rcases List.mem_cons.mp hc with rfl | hc
  · exact ⟨by decide, by decide⟩
  · rcases List.mem_cons.mp hc with rfl | hc
    · exact hexlist_chars _ (hexDigitChar_mem _)
    · rcases List.mem_cons.mp hc with rfl | hc
      · exact hexlist_chars _ (hexDigitChar_mem _)
      · simp at hc

theorem urlSafeByte_range (b : Nat) (h : urlSafeByte b = true) : 38 ≤ b ∧ b ≤ 126 := by
  simp only [urlSafeByte, Bool.or_eq_true, Bool.and_eq_true, beq_iff_eq,
    decide_eq_true_eq] at h
  omega

theorem pyIsSpace_false_of_range (c : Char) (h1 : 38 ≤ c.toNat) (h2 : c.toNat ≤ 126) :
    pyIsSpace c = false := by
  simp only [pyIsSpace, Bool.or_eq_false_iff, beq_eq_false_iff_ne, ne_eq]
  omega

theorem quoteChar_chars (c c2 : Char) (hc : c2 ∈ quoteChar c) :
    32 ≤ c2.toNat ∧ pyIsSpace c2 = false := by
  unfold quoteChar at hc
  split at hc
  · split at hc
    · next hsafe =>
      simp only [List.mem_singleton] at hc
      subst hc
      have hr := urlSafeByte_range _ hsafe
      exact ⟨by omega, pyIsSpace_false_of_range _ (by omega) (by omega)⟩
    · exact pctEncode_chars _ _ hc
  · rcases List.mem_flatMap.mp hc with ⟨b, _, hb⟩
    exact pctEncode_chars _ _ hb

theorem utf8Bytes_ne_nil (c : Char) : utf8Bytes c ≠ [] := by
  unfold utf8Bytes
  split_ifs <;> simp

theorem quoteChar_eq_of_no_pct (c : Char) (h : '%' ∉ quoteChar c) : quoteChar c = [c] := by
  by_cases h1 : c.toNat < 128
  · by_cases h2 : urlSafeByte c.toNat = true
    · unfold quoteChar
      rw [if_pos h1, if_pos h2]
    · exfalso
      refine h ?_
      unfold quoteChar
      rw [if_pos h1, if_neg h2]
      simp [pctEncode]
  · exfalso
    refine h ?_
    unfold quoteChar
    rw [if_neg h1]
    obtain ⟨b, hbs⟩ := List.exists_mem_of_ne_nil _ (utf8Bytes_ne_nil c)
    exact List.mem_flatMap.mpr ⟨b, hbs, by simp [pctEncode]⟩

theorem pyQuote_eq_of_no_pct (l : List Char) (h : '%' ∉ pyQuote l) : pyQuote l = l := by
  induction l with
  | nil => rfl
  | cons c cs ih =>
    unfold pyQuote at h ⊢
    simp only [List.flatMap_cons] at h ⊢
    have h1 : '%' ∉ quoteChar c := fun hm => h (List.mem_append.mpr (Or.inl hm))
    have h2 : '%' ∉ pyQuote cs := fun hm => h (List.mem_append.mpr (Or.inr hm))
    rw [quoteChar_eq_of_no_pct c h1]
    have := ih h2
    unfold pyQuote at this
    rw [this]
    rfl

theorem pyQuote_chars (l : List Char) (c : Char) (hc : c ∈ pyQuote l) :
    32 ≤ c.toNat ∧ pyIsSpace c = false := by
  rcases List.mem_flatMap.mp hc with ⟨d, _, hd⟩
  exact quoteChar_chars d c hd

/-! ### Character-level facts about `clean_url` -/

theorem schemeSep_chars : ∀ c ∈ schemeSep, 32 ≤ c.toNat ∧ pyIsSpace c = false := by decide

theorem applySchemeQuote_of_none (z : List Char)
    (h : splitOnMarker schemeSep z = none) : applySchemeQuote z = z := by
  unfold applySchemeQuote
  rw [h]

theorem applySchemeQuote_of_some (z s p : List Char)
    (h : splitOnMarker schemeSep z = some (s, p)) :
    applySchemeQuote z = s ++ schemeSep ++ pyQuote p := by
  unfold applySchemeQuote
  rw [h]

theorem clean_z2_char (u : List Char) (c : Char)
    (hc : c ∈ (collapseWs u).filter fun c => 32 ≤ c.toNat) :
    32 ≤ c.toNat ∧ (pyIsSpace c = true → c = ' ') := by
  have h1 := (List.mem_filter.mp hc).1
  have h2 := (List.mem_filter.mp hc).2
  refine ⟨by simpa using h2, ?_⟩
  intro hws
  rcases collapseWs_char u c h1 with h | ⟨_, hf⟩
  · exact h
  · rw [hf] at hws; cases hws

theorem clean_url_char (u : List Char) (c : Char) (hc : c ∈ clean_url u) :
    32 ≤ c.toNat ∧ (pyIsSpace c = true → c = ' ') := by
  unfold clean_url at hc
  cases hsp : splitOnMarker schemeSep ((collapseWs u).filter fun c => 32 ≤ c.toNat) with
  | none =>
    rw [applySchemeQuote_of_none _ hsp] at hc
    exact clean_z2_char u c hc
  | some sp =>
    obtain ⟨s, p⟩ := sp
    rw [applySchemeQuote_of_some _ _ _ hsp] at hc
    have hz : (collapseWs u).filter (fun c => 32 ≤ c.toNat) = s ++ schemeSep ++ p :=
      splitOnMarker_eq_append _ _ _ _ hsp
    rcases List.mem_append.mp hc with hc1 | hq
    · rcases List.mem_append.mp hc1 with hcs | hcsep
      · refine clean_z2_char u c ?_
        rw [hz]
        exact List.mem_append.mpr (Or.inl (List.mem_append.mpr (Or.inl hcs)))
      · obtain ⟨hge, hws⟩ := schemeSep_chars c hcsep
        exact ⟨hge, fun h => by rw [hws] at h; cases h⟩
    · obtain ⟨hge, hws⟩ := pyQuote_chars p c hq
      exact ⟨hge, fun h => by rw [hws] at h; cases h⟩

theorem clean_url_fixed (y : List Char) (hnws : ∀ c ∈ y, pyIsSpace c = false)
    (hge : ∀ c ∈ y, 32 ≤ c.toNat) : clean_url y = applySchemeQuote y := by
  unfold clean_url
  rw [collapseWs_of_nows y hnws,
    List.filter_eq_self.mpr (fun c hc => by simpa using hge c hc)]

/-! ### Claim C4 -/

/-- Claim C4 is refuted at a concrete input: the raw URL `"ht tp://e.com"`
contains embedded whitespace, and the string `clean_url` returns for it
still contains the whitespace character `U+0020`: the space falls before
the first `://` and only the part after the separator is percent-encoded,
so the claim that the output contains no whitespace characters is false. -/
theorem C4_counterexample :
    (∃ c ∈ "ht tp://e.com".toList, pyIsSpace c = true) ∧
    clean_url "ht tp://e.com".toList = "ht tp://e.com".toList ∧
    ' ' ∈ clean_url "ht tp://e.com".toList ∧ pyIsSpace ' ' = true := by
  exact ⟨⟨' ', by decide, by decide⟩, by decide, by decide, by decide⟩

/-- Claim C4 (amended): for every raw URL string, every character of the
string returned by `clean_url` has code point at least 32 (so no control
characters remain), and the only whitespace character that can remain is
the plain space `U+0020` (spaces survive in the portion before the first
`://`, or everywhere when no `://` occurs; every other whitespace
character is either collapsed away or percent-encoded). -/
theorem C4_amended (url : List Char) :
    ∀ c ∈ clean_url url, 32 ≤ c.toNat ∧ (pyIsSpace c = true → c = ' ') :=
  fun c hc => clean_url_char url c hc

/-- Witness for C4 (amended) at the concrete input `"ht tp://e.com"`. -/
theorem C4_witness :
    32 ≤ (' ').toNat ∧ (pyIsSpace ' ' = true → ' ' = ' ') :=
  C4_amended "ht tp://e.com".toList ' ' (by decide)

/-! ### Claim C3 -/

/-- Claim C3 is refuted at a concrete input: `"http://a b"` contains
embedded whitespace, and `clean_url` is not idempotent on it. The first
pass encodes the space as `%20`; the second pass re-encodes the percent
sign, yielding `%2520`, because `%` is not in the safe set of
`quote(path, safe=":/?=&")`. -/
theorem C3_counterexample :
    (' ' ∈ "http://a b".toList ∧ pyIsSpace ' ' = true) ∧
    clean_url "http://a b".toList = "http://a%20b".toList ∧
    clean_url (clean_url "http://a b".toList) = "http://a%2520b".toList ∧
    clean_url (clean_url "http://a b".toList) ≠ clean_url "http://a b".toList := by
  exact ⟨⟨by decide, by decide⟩, by decide, by decide, by decide⟩

/-- Claim C3 (amended): `clean_url` is idempotent on every input whose
first pass introduces no percent-escape and leaves no space character;
concretely, whenever the output of `clean_url` contains no `%` and no
space, a second pass returns it unchanged. In general idempotence fails:
a `%` introduced by the first pass is re-encoded as `%25` by a second
pass, and a space surviving outside the encoded portion can be collapsed
differently once neighbouring control characters have been dropped. -/
theorem C3_amended (url : List Char) (h1 : '%' ∉ clean_url url)
    (h2 : ' ' ∉ clean_url url) :
    clean_url (clean_url url) = clean_url url := by
  have hnws : ∀ c ∈ clean_url url, pyIsSpace c = false := by
    intro c hc
    cases hb : pyIsSpace c
    · rfl
    · exact absurd ((clean_url_char url c hc).2 hb ▸ hc) h2
  have hge : ∀ c ∈ clean_url url, 32 ≤ c.toNat := fun c hc => (clean_url_char url c hc).1
  rw [clean_url_fixed (clean_url url) hnws hge]
  cases hsp : splitOnMarker schemeSep ((collapseWs url).filter fun c => 32 ≤ c.toNat) with
  | none =>
    have hy : clean_url url = (collapseWs url).filter fun c => 32 ≤ c.toNat := by
      unfold clean_url
      exact applySchemeQuote_of_none _ hsp
    rw [hy, applySchemeQuote_of_none _ hsp]
  | some sp =>
    obtain ⟨s, p⟩ := sp
    have hy : clean_url url = s ++ schemeSep ++ pyQuote p := by
      unfold clean_url
      exact applySchemeQuote_of_some _ _ _ hsp
    have hz : (collapseWs url).filter (fun c => 32 ≤ c.toNat) = s ++ schemeSep ++ p :=
      splitOnMarker_eq_append _ _ _ _ hsp
    have hsp2 : splitOnMarker schemeSep (s ++ schemeSep ++ p) = some (s, p) := by
      rw [← hz]; exact hsp
    have hsp3 := splitOnMarker_shift schemeSep s p (pyQuote p) hsp2
    have hnp : '%' ∉ pyQuote p := by
      intro hm
      refine h1 ?_
      rw [hy]
      exact List.mem_append.mpr (Or.inr hm)
    have hqp : pyQuote p = p := pyQuote_eq_of_no_pct p hnp
    rw [hy, applySchemeQuote_of_some _ _ _ hsp3, hqp, hqp]

/-- Witness for C3 (amended): the input contains whitespace, its cleaned
form contains neither `%` nor a space, and a second pass is the
identity. -/
theorem C3_witness :
    '%' ∉ clean_url " http://ex.com/a\n".toList ∧
    ' ' ∉ clean_url " http://ex.com/a\n".toList ∧
    clean_url (clean_url " http://ex.com/a\n".toList) =
      clean_url " http://ex.com/a\n".toList :=
  ⟨by decide, by decide, C3_amended _ (by decide) (by decide)⟩

/-! ### Lemmas about the candidate loop -/

theorem loopGo_records {α : Type} (env : Nat → CandOutcome α) :
    ∀ rem i acc, (loopGo env i rem (errBefore env i) acc).records =
      acc ++ (procList env i rem).filterMap (rowOf env) := by
  intro rem
  induction rem with
  | zero => intro i acc; simp [loopGo, procList]
  | succ rem ih =>
    intro i acc
    cases henv : env i with
    | recorded r =>
      have he : errBefore env (i + 1) = 0 := by simp [errBefore, henv]
      have hstop : stopAfter env i = false := by simp [stopAfter, isFailedOutcome, henv]
      have hrow : rowOf env i = some r := by simp [rowOf, henv]
      have iH := ih (i + 1) (acc ++ [r])
      rw [he] at iH
      simp only [loopGo, henv]
      rw [iH]
      simp [procList, hstop, hrow]
    | skipped =>
      have he : errBefore env (i + 1) = errBefore env i + 1 := by simp [errBefore, henv]
      have hstop : stopAfter env i = false := by simp [stopAfter, isFailedOutcome, henv]
      have hrow : rowOf env i = none := by simp [rowOf, henv]
      have iH := ih (i + 1) acc
      rw [he] at iH
      simp only [loopGo, henv]
      rw [iH]
      simp [procList, hstop, hrow]
    | failed =>
      have he : errBefore env (i + 1) = errBefore env i + 1 := by simp [errBefore, henv]
      have hrow : rowOf env i = none := by simp [rowOf, henv]
      by_cases hb : 3 ≤ errBefore env i + 1
      · have hstop : stopAfter env i = true := by
          simp [stopAfter, isFailedOutcome, henv, he, hb]
        simp only [loopGo, henv, if_pos hb]
        simp [procList, hstop, hrow]
      · have hstop : stopAfter env i = false := by
          simp [stopAfter, isFailedOutcome, henv, he, hb]
        have iH := ih (i + 1) acc
        rw [he] at iH
        simp only [loopGo, henv, if_neg hb]
        rw [iH]
        simp [procList, hstop, hrow]

theorem loopGo_events {α : Type} (env : Nat → CandOutcome α) :
    ∀ rem i acc, (loopGo env i rem (errBefore env i) acc).events =
      (procList env i rem).flatMap (evOf env) := by
  intro rem
  induction rem with
  | zero => intro i acc; simp [loopGo, procList]
  | succ rem ih =>
    intro i acc
    cases henv : env i with
    | recorded r =>
      have he : errBefore env (i + 1) = 0 := by simp [errBefore, henv]
      have hstop : stopAfter env i = false := by simp [stopAfter, isFailedOutcome, henv]
      have hfail : isFailedOutcome (env i) = false := by simp [isFailedOutcome, henv]
      have iH := ih (i + 1) (acc ++ [r])
      rw [he] at iH
      simp only [loopGo, henv]
      rw [iH]
      simp [procList, hstop, evOf, isFailedOutcome, he, henv]
    | skipped =>
      have he : errBefore env (i + 1) = errBefore env i + 1 := by simp [errBefore, henv]
      have hstop : stopAfter env i = false := by simp [stopAfter, isFailedOutcome, henv]
      have hfail : isFailedOutcome (env i) = false := by simp [isFailedOutcome, henv]
      have iH := ih (i + 1) acc
      rw [he] at iH
      simp only [loopGo, henv]
      rw [iH]
      simp [procList, hstop, evOf, isFailedOutcome, he, henv]
    | failed =>
      have he : errBefore env (i + 1) = errBefore env i + 1 := by simp [errBefore, henv]
      have hfail : isFailedOutcome (env i) = true := by simp [isFailedOutcome, henv]
      by_cases hb : 3 ≤ errBefore env i + 1
      · have hstop : stopAfter env i = true := by
          simp [stopAfter, isFailedOutcome, henv, he, hb]
        simp only [loopGo, henv, if_pos hb]
        simp [procList, hstop, evOf, hfail, he]
      · have hstop : stopAfter env i = false := by
          simp [stopAfter, isFailedOutcome, henv, he, hb]
        have iH := ih (i + 1) acc
        rw [he] at iH
        simp only [loopGo, henv, if_neg hb]
        rw [iH]
        simp [procList, hstop, evOf, hfail, he]

theorem procList_mem {α : Type} (env : Nat → CandOutcome α) :
    ∀ rem i j, j ∈ procList env i rem ↔
      (i ≤ j ∧ j < i + rem ∧ ∀ k, i ≤ k → k < j → stopAfter env k = false) := by
  intro rem
  induction rem with
  | zero =>
    intro i j
    simp only [procList, List.not_mem_nil, false_iff]
    rintro ⟨h1, h2, _⟩
    omega
  | succ rem ih =>
    intro i j
    by_cases hstop : stopAfter env i = true
    · rw [show procList env i (rem + 1) = [i] by simp [procList, hstop]]
      simp only [List.mem_cons, List.not_mem_nil, or_false]
      constructor
      · rintro rfl
        exact ⟨Nat.le_refl _, by omega, fun k hk1 hk2 => absurd hk2 (by omega)⟩
      · rintro ⟨h1, _, h3⟩
        by_contra hne
        have hij : i < j := by omega
        have hc := h3 i (Nat.le_refl i) hij
        rw [hstop] at hc
        cases hc
    · have hstop2 : stopAfter env i = false := by
        cases hx : stopAfter env i
        · rfl
        · exact absurd hx hstop
      simp only [procList, hstop2, Bool.false_eq_true, if_false, List.mem_cons]
      rw [ih (i + 1) j]
      constructor
      · rintro (rfl | ⟨h1, h2, h3⟩)
        · exact ⟨Nat.le_refl _, by omega, fun k hk1 hk2 => absurd hk2 (by omega)⟩
        · refine ⟨by omega, by omega, fun k hk1 hk2 => ?_⟩
          rcases Nat.eq_or_lt_of_le hk1 with rfl | hk
          · exact hstop2
          · exact h3 k (by omega) hk2
      · rintro ⟨h1, h2, h3⟩
        by_cases hj : j = i
        · exact Or.inl hj
        · exact Or.inr ⟨by omega, by omega, fun k hk1 hk2 => h3 k (by omega) hk2⟩

theorem start_mem_flatMap {α : Type} (env : Nat → CandOutcome α) (l : List Nat) (i : Nat) :
    LoopEvent.start i ∈ l.flatMap (evOf env) ↔ i ∈ l := by
  constructor
  · intro h
    rcases List.mem_flatMap.mp h with ⟨j, hj, hev⟩
    have hij : i = j := by
      cases hfail : isFailedOutcome (env j) <;> simp [evOf, hfail] at hev <;> exact hev
    subst hij
    exact hj
  · intro hj
    exact List.mem_flatMap.mpr ⟨i, hj, by simp [evOf]⟩

/-! ### Claim C1 -/

/-- Claim C1 is refuted at a concrete input: a run of 4 candidates that
are all `Skipped` (empty content). The consecutive-error counter reaches
the budget 3 after candidate 2 (the `done 2 3` event), yet candidate 3
still begins processing (the `start 3` event): the budget is only
checked in the `except` branch (`main.py:352`), which a `Skipped`
outcome never reaches, so reaching the budget does not stop the run. -/
theorem C1_counterexample :
    (analyzeLoop (fun _ => (CandOutcome.skipped : CandOutcome Unit)) 4).events =
      [.start 0, .done 0 1, .sleep 2, .start 1, .done 1 2, .sleep 2,
       .start 2, .done 2 3, .sleep 2, .start 3, .done 3 4, .sleep 2] := by decide

/-- Claim C1 (amended): the consecutive-error counter is reset to zero on
every `Recorded` outcome and incremented on every `Failed` and every
`Skipped` outcome (this is `errBefore`), and records accumulated before
an abort are kept; but the budget of 3 is checked only on `Failed`
outcomes: candidate `i` begins processing exactly when no earlier
candidate `j` had a `Failed` outcome with the incremented counter
already at 3 or more (`stopAfter`). A `Skipped` outcome can bring the
counter to the budget, or beyond, without stopping the iteration. -/
theorem C1_amended {α : Type} (env : Nat → CandOutcome α) (n : Nat) :
    (analyzeLoop env n).records = (procList env 0 n).filterMap (rowOf env) ∧
    (∀ i, LoopEvent.start i ∈ (analyzeLoop env n).events ↔
      (i < n ∧ ∀ j, j < i → stopAfter env j = false)) ∧
    (∀ i, LoopEvent.start i ∈ (analyzeLoop env n).events →
      LoopEvent.done i (errBefore env (i + 1)) ∈ (analyzeLoop env n).events) := by
  have hev : (analyzeLoop env n).events = (procList env 0 n).flatMap (evOf env) := by
    have := loopGo_events env n 0 []
    simpa [analyzeLoop, errBefore] using this
  refine ⟨?_, ?_, ?_⟩
  · have := loopGo_records env n 0 []
    simpa [analyzeLoop, errBefore] using this
  · intro i
    rw [hev, start_mem_flatMap, procList_mem env n 0 i]
    constructor
    · rintro ⟨_, h2, h3⟩
      exact ⟨by omega, fun j hj => h3 j (by omega) hj⟩
    · rintro ⟨h1, h2⟩
      exact ⟨by omega, by omega, fun k _ hk => h2 k hk⟩
  · intro i hi
    rw [hev] at hi ⊢
    have hmem := (start_mem_flatMap env _ i).mp hi
    exact List.mem_flatMap.mpr ⟨i, hmem, by simp [evOf]⟩

/-- Witness for C1 (amended): in a concrete all-`Skipped` run of two
candidates, candidate 1 begins processing. -/
theorem C1_witness :
    LoopEvent.start 1 ∈
      (analyzeLoop (fun _ => (CandOutcome.skipped : CandOutcome Unit)) 2).events :=
  ((C1_amended (fun _ => CandOutcome.skipped) 2).2.1 1).mpr
    ⟨by omega, fun j _ => by simp [stopAfter, isFailedOutcome]⟩

/-! ### Claim C5 -/

/-- Claim C5 is refuted at a concrete input: a run of two candidates in
which candidate 0 has a `Failed` outcome and candidate 1 a `Recorded`
one. Candidate 0 completes (`done 0 1`) and candidate 1 starts
immediately, with no `sleep` event in between: the `asyncio.sleep(2)`
sits inside the `try` block (`main.py:347`) and the `continue` in the
`except` block (`main.py:355`) skips it, so no pause follows a `Failed`
candidate. -/
theorem C5_counterexample :
    (analyzeLoop
      (fun i => if i = 0 then CandOutcome.failed else CandOutcome.recorded ()) 2).events =
      [.start 0, .done 0 1, .start 1, .done 1 0, .sleep 2] := by decide

/-- Claim C5 (amended): in every run, the events of each processed
candidate are its `start`, its `done` with the updated counter, and then
a fixed 2-second pause exactly when the outcome was `Recorded` or
`Skipped`; after a `Failed` outcome no pause occurs before the next
candidate starts. -/
theorem C5_amended {α : Type} (env : Nat → CandOutcome α) (n : Nat) :
    (analyzeLoop env n).events = (procList env 0 n).flatMap (evOf env) := by
  have := loopGo_events env n 0 []
  simpa [analyzeLoop, errBefore] using this

/-! ### Claim C6 -/

theorem fetchAux_step_response (env : Nat → AttemptRes) (maxRetries a rem : Nat)
    (st : Nat) (tx : List Char) (h : env a = .response st tx) (h2 : is2xx st = false) :
    fetchAux env maxRetries a (rem + 1) =
      if a = maxRetries - 1 then
        ([.attempt a], .error (excOfAttempt (.response st tx)))
      else
        (.attempt a :: .sleep 1 :: (fetchAux env maxRetries (a + 1) rem).1,
         (fetchAux env maxRetries (a + 1) rem).2) := by
  simp [fetchAux, h, h2]

theorem fetchAux_step_timeout (env : Nat → AttemptRes) (maxRetries a rem : Nat)
    (h : env a = .timeout) :
    fetchAux env maxRetries a (rem + 1) =
      if a = maxRetries - 1 then ([.attempt a], .error (excOfAttempt .timeout))
      else
        (.attempt a :: .sleep 1 :: (fetchAux env maxRetries (a + 1) rem).1,
         (fetchAux env maxRetries (a + 1) rem).2) := by
  simp [fetchAux, h]

theorem fetchAux_step_transport (env : Nat → AttemptRes) (maxRetries a rem : Nat)
    (m : List Char) (h : env a = .transportError m) :
    fetchAux env maxRetries a (rem + 1) =
      if a = maxRetries - 1 then
        ([.attempt a], .error (excOfAttempt (.transportError m)))
      else
        (.attempt a :: .sleep 1 :: (fetchAux env maxRetries (a + 1) rem).1,
         (fetchAux env maxRetries (a + 1) rem).2) := by
  simp [fetchAux, h]

theorem fetchAux_exhausts (env : Nat → AttemptRes) (n : Nat)
    (hf : ∀ i, i < n → isFailAttempt (env i) = true) :
    ∀ rem a, a + rem = n → 1 ≤ rem →
      fetchAux env n a rem =
        (((List.range' a (rem - 1)).flatMap fun i => [.attempt i, .sleep 1]) ++
          [.attempt (n - 1)],
         .error (excOfAttempt (env (n - 1)))) := by
  intro rem
  induction rem with
  | zero => intro a _ h; exact absurd h (by omega)
  | succ rem ih =>
    intro a ha _
    have hfa : isFailAttempt (env a) = true := hf a (by omega)
    cases rem with
    | zero =>
      have han : a = n - 1 := by omega
      subst han
      cases henv : env (n - 1) with
      | response st tx =>
        have h2 : is2xx st = false := by
          rw [henv] at hfa
          simpa [isFailAttempt] using hfa
        simp [fetchAux, henv, h2]
      | timeout => simp [fetchAux, henv]
      | transportError m => simp [fetchAux, henv]
    | succ rem2 =>
      have hne : a ≠ n - 1 := by omega
      have hrec := ih (a + 1) (by omega) (by omega)
      have hrange : List.range' a (rem2 + 2 - 1) =
          a :: List.range' (a + 1) (rem2 + 1 - 1) := rfl
      cases henv : env a with
      | response st tx =>
        have h2 : is2xx st = false := by
          rw [henv] at hfa
          simpa [isFailAttempt] using hfa
        rw [fetchAux_step_response env n a (rem2 + 1) st tx henv h2, if_neg hne, hrec,
          hrange]
        simp
      | timeout =>
        rw [fetchAux_step_timeout env n a (rem2 + 1) henv, if_neg hne, hrec, hrange]
        simp
      | transportError m =>
        rw [fetchAux_step_transport env n a (rem2 + 1) m henv, if_neg hne, hrec, hrange]
        simp

/-- Claim C6 (confirmed): for every URL and attempt environment in which
every attempt fails (non-2xx status, timeout or transport error), and
every `maxRetries` of at least 1, `fetch_url_with_retry` performs
exactly `maxRetries` attempts (indices 0 to `maxRetries - 1`), with a
fixed 1-second pause between consecutive attempts and no pause after the
last one, and fails with the `HTTPException` built from the final
attempt. -/
theorem C6_retry_exhausts (url : List Char) (env : Nat → AttemptRes) (n : Nat)
    (hn : 1 ≤ n) (hf : ∀ i, i < n → isFailAttempt (env i) = true) :
    fetch_url_with_retry url env n =
      (.fetching (clean_url url) ::
        (((List.range (n - 1)).flatMap fun i => [FetchEvent.attempt i, FetchEvent.sleep 1]) ++
          [.attempt (n - 1)]),
       .error (excOfAttempt (env (n - 1)))) := by
  have h := fetchAux_exhausts env n hf n 0 (by omega) hn
  unfold fetch_url_with_retry
  rw [h]
  simp [List.range_eq_range']

/-- Witness for C6 at the concrete input: three attempts that all time
out yield the trace attempt-sleep-attempt-sleep-attempt and surface the
504 timeout exception of the final attempt. -/
theorem C6_witness :
    fetch_url_with_retry "http://e.com".toList (fun _ => AttemptRes.timeout) 3 =
      (.fetching (clean_url "http://e.com".toList) ::
        (((List.range 2).flatMap fun i => [FetchEvent.attempt i, FetchEvent.sleep 1]) ++
          [.attempt 2]),
       .error (excOfAttempt AttemptRes.timeout)) :=
  C6_retry_exhausts "http://e.com".toList (fun _ => AttemptRes.timeout) 3 (by omega)
    (fun i _ => rfl)

/-! ### Claim C9 -/

theorem mem_of_hasSub (pat s : List Char) (c : Char) (hc : c ∈ pat)
    (h : hasSub pat s = true) : c ∈ s := by
  unfold hasSub at h
  cases hsp : splitOnMarker pat s with
  | none => rw [hsp] at h; cases h
  | some ab =>
    obtain ⟨a, b⟩ := ab
    have hdec := splitOnMarker_eq_append pat s a b hsp
    subst hdec
    exact List.mem_append.mpr (Or.inl (List.mem_append.mpr (Or.inr hc)))

theorem clean_url_ne_nil_of_marker (s : List Char) (h : hasSub postMarker s = true) :
    clean_url s ≠ [] := by
  have hp : 'p' ∈ s := mem_of_hasSub postMarker s 'p' (by decide) h
  have hz1 : 'p' ∈ collapseWs s := mem_collapseWs s 'p' hp (by decide)
  have hz2 : 'p' ∈ (collapseWs s).filter fun c => 32 ≤ c.toNat :=
    List.mem_filter.mpr ⟨hz1, by decide⟩
  unfold clean_url
  cases hsp : splitOnMarker schemeSep ((collapseWs s).filter fun c => 32 ≤ c.toNat) with
  | none =>
    rw [applySchemeQuote_of_none _ hsp]
    exact List.ne_nil_of_mem hz2
  | some sp =>
    obtain ⟨a, b⟩ := sp
    rw [applySchemeQuote_of_some _ _ _ hsp]
    simp [schemeSep]

theorem locAccept_eq (us : List XmlElem) :
    us.filterMap (fun u => locAccept u.text) =
      ((us.filterMap XmlElem.text).filter fun s => hasSub postMarker s).map clean_url := by
  induction us with
  | nil => rfl
  | cons u us ih =>
    cases htx : u.text with
    | none =>
      have hacc : locAccept u.text = none := by rw [htx]; rfl
      simp only [List.filterMap_cons, hacc, htx]
      exact ih
    | some s =>
      by_cases hsub : hasSub postMarker s = true
      · have hemp : s.isEmpty = false := by
          have hp : 'p' ∈ s := mem_of_hasSub postMarker s 'p' (by decide) hsub
          cases s with
          | nil => simp at hp
          | cons c cs => rfl
        have hcne : (clean_url s).isEmpty = false := by
          have hne := clean_url_ne_nil_of_marker s hsub
          cases hcu : clean_url s with
          | nil => exact absurd hcu hne
          | cons c cs => rfl
        have hacc : locAccept (some s) = some (clean_url s) := by
          simp [locAccept, hemp, hsub, hcne]
        simp only [List.filterMap_cons, htx, hacc]
        rw [ih]
        simp [hsub]
      · have hsubf : hasSub postMarker s = false := by
          cases hx : hasSub postMarker s with
          | false => rfl
          | true => exact absurd hx hsub
        have hacc : locAccept (some s) = none := by
          by_cases he : s.isEmpty <;> simp [locAccept, he, hsubf]
        simp only [List.filterMap_cons, htx, hacc]
        rw [ih]
        simp [hsubf]

/-- Claim C9 (confirmed): for every sitemap body that is valid XML with
every element in the sitemap namespace (as the sitemap schema requires),
`parse_sitemap_content` returns exactly the `loc` values whose text
contains the post marker, each normalized with `clean_url`, with
duplicates removed preserving first-seen order, and no other URLs — the
code-side function equals the definition transcribed from the spec. -/
theorem C9_sitemap_exact (root : XmlElem)
    (hns : ∀ e ∈ descAll root, hasPfx nsBraced e.tag = true) :
    parse_sitemap_content (.xml root) = sitemapSpecLocs root := by
  have hloc : findallDesc (['l', 'o', 'c'] : List Char) root = [] := by
    unfold findallDesc
    rw [List.filter_eq_nil_iff]
    intro e he heq
    have h1 := hns e he
    have h2 : e.tag = ['l', 'o', 'c'] := by simpa using heq
    rw [h2] at h1
    exact absurd h1 (by decide)
  by_cases hurls : (findallDesc nsLocTag root).isEmpty = true
  · have hnil : findallDesc nsLocTag root = [] := by
      cases hx : findallDesc nsLocTag root with
      | nil => rfl
      | cons e es => rw [hx] at hurls; simp at hurls
    simp [parse_sitemap_content, sitemapSpecLocs, hnil, hloc, dedupFirst, dedupFirstGo]
  · have hne : (findallDesc nsLocTag root).isEmpty = false := by
      cases hx : (findallDesc nsLocTag root).isEmpty with
      | false => rfl
      | true => exact absurd hx hurls
    simp only [parse_sitemap_content, sitemapSpecLocs, hne, Bool.false_eq_true, if_false]
    rw [locAccept_eq]

/-- Witness for C9 at a concrete namespaced sitemap tree: the duplicate
entry is dropped, the non-post URL is excluded, and the URL with an
embedded space is normalized to `%20`. -/
theorem C9_witness :
    parse_sitemap_content (.xml c9Root) = sitemapSpecLocs c9Root ∧
    parse_sitemap_content (.xml c9Root) =
      ["http://e.com/post/a".toList, "http://e.com/post/b%20c".toList] :=
  ⟨C9_sitemap_exact c9Root (by decide), by decide⟩

/-! ### Claim C7 -/

/-- Claim C7 is refuted at a concrete input: in a document whose `title`
element is empty, `soup.title` finds the element, its `.string` is
`None`, and `" ".join(title.split())` at `main.py:317` raises
`AttributeError` — the extraction is not total on documents with an
empty title element, contrary to the claim. -/
theorem C7_counterexample :
    extract_page [HtmlNode.elem "html".toList []
      [HtmlNode.elem "head".toList [] [HtmlNode.elem "title".toList [] []]]] =
      .error PyError.attributeError := rfl

/-- Claim C7 (amended): the extraction step returns an `ExtractedPage`
(title, meta description, body text, word count) exactly when any found
`title` element has a defined `.string`; in particular when no `title`
element exists it succeeds with the sentinel title `No title`. A present
`title` element whose `.string` is `None` (empty or multi-child title)
makes the step raise `AttributeError` instead. -/
theorem C7_amended (soup : Soup) :
    ((∃ r, extract_page soup = .ok r) ↔
      (∀ t, findInForest "title".toList [] soup = some t → nodeString t ≠ none)) ∧
    (findInForest "title".toList [] soup = none →
      extract_page soup = .ok ⟨"No title".toList, extract_meta_description soup,
        (extract_content_from_html soup).1, (extract_content_from_html soup).2⟩) := by
  have hnt : collapseWs "No title".toList = "No title".toList := by decide
  cases ht : findInForest "title".toList [] soup with
  | none =>
    have hok : extract_page soup = .ok ⟨collapseWs "No title".toList,
        extract_meta_description soup, (extract_content_from_html soup).1,
        (extract_content_from_html soup).2⟩ := by
      simp only [extract_page, ht]
    refine ⟨?_, ?_⟩
    · constructor
      · intro _ t hsome
        exact Option.noConfusion hsome
      · intro _
        exact ⟨_, hok⟩
    · intro _
      rw [hok, hnt]
  | some tEl =>
    cases hs : nodeString tEl with
    | none =>
      have herr : extract_page soup = .error .attributeError := by
        simp only [extract_page, ht, hs]
      refine ⟨?_, ?_⟩
      · constructor
        · rintro ⟨r, hr⟩
          rw [herr] at hr
          cases hr
        · intro hforall
          exact absurd hs (hforall tEl rfl)
      · intro hnone
        exact Option.noConfusion hnone
    | some s =>
      have hok : extract_page soup = .ok ⟨collapseWs s, extract_meta_description soup,
          (extract_content_from_html soup).1, (extract_content_from_html soup).2⟩ := by
        simp only [extract_page, ht, hs]
      refine ⟨?_, ?_⟩
      · constructor
        · intro _ t hsome
          injection hsome with hEl
          subst hEl
          rw [hs]
          simp
        · intro _
          exact ⟨_, hok⟩
      · intro hnone
        exact Option.noConfusion hnone

/-- Witness for C7 (amended) at a concrete document with no `title`
element: extraction succeeds with the sentinel title. -/
theorem C7_witness :
    extract_page [HtmlNode.elem "html".toList [] []] =
      .ok ⟨"No title".toList,
        extract_meta_description [HtmlNode.elem "html".toList [] []],
        (extract_content_from_html [HtmlNode.elem "html".toList [] []]).1,
        (extract_content_from_html [HtmlNode.elem "html".toList [] []]).2⟩ :=
  (C7_amended _).2 rfl

/-! ### Claim C8 -/

/-- Claim C8 marked as a code bug, evaluated at the failing input
`c8Soup`, whose only content container is `<div class="content">`: no
selector matches — in particular the `div` selectors pass
`{"class_": ...}` as the positional `attrs` dict, which is matched as a
literal attribute named `class_` and can never match the HTML `class`
attribute — so extraction falls back to the whole body and includes the
`nav` text `MENU`, rather than extracting `hello` from the `div` as the
claim requires. -/
theorem C8_code_behavior :
    trySelectors content_selectors c8Soup = none ∧
    extract_content_from_html c8Soup = ("MENU hello".toList, 2) ∧
    extract_content_from_html c8Soup ≠ ("hello".toList, 1) := by
  refine ⟨rfl, by decide, by decide⟩

/-! ### Claim C10 -/

/-- Claim C10 (confirmed): when no content selector matches, the fallback
returns the whitespace-collapsed full text of the `body` element with no
removal of `script`, `style`, `nav`, `header` or `footer` descendants
(`getTextStrip` collects every text descendant of the body), and the
word count is the token count of that text; the pruning of non-content
elements happens only inside a matched container. -/
theorem C10_fallback_unpruned (soup : Soup) (b : HtmlNode)
    (hsel : trySelectors content_selectors soup = none)
    (hbody : findInForest "body".toList [] soup = some b) :
    extract_content_from_html soup =
      (collapseWs (getTextStrip b), (pySplit (collapseWs (getTextStrip b))).length) := by
  have hbody2 : findInForest (['b', 'o', 'd', 'y'] : List Char) [] soup = some b := hbody
  simp [extract_content_from_html, hsel, hbody2]

/-- Witness for C10 at a concrete document whose body holds a `script`
element: its text `SCRIPTTEXT` is included in the fallback body text and
counted. -/
theorem C10_witness :
    extract_content_from_html c10Soup = ("SCRIPTTEXT hello".toList, 2) := by
  have h := C10_fallback_unpruned c10Soup c10Body rfl rfl
  rw [h]
  decide

/-! ### Claim C2 -/

/-- Claim C2 marked as a code bug, evaluated at failing inputs. For a
non-http(s) input URL the surfaced failure has status 500, not 400: the
`HTTPException(400, ...)` raised at `main.py:288` is caught by the outer
`except Exception` (`main.py:401-403`) and re-raised as
`HTTPException(500, str(e))`. For an empty sitemap and for a run with
zero successfully analyzed candidates, the `HTTPException(404, ...)`
raised inside the inner `try` is wrapped by both `except` blocks,
surfacing as status 500 with the 404 embedded in the text. -/
theorem C2_code_behavior :
    analyze_sitemap (α := Unit) "ftp://example.com/sitemap.xml".toList (.ok ())
      (.plain []) (fun _ => .failed) =
      .error ⟨500, "400: Invalid sitemap URL. Must start with http:// or https://".toList⟩ ∧
    analyze_sitemap (α := Unit) "http://example.com/sitemap.xml".toList (.ok ())
      (.plain []) (fun _ => .failed) =
      .error ⟨500,
        "500: Error processing sitemap: 404: No blog posts found in sitemap".toList⟩ ∧
    analyze_sitemap (α := Unit) "http://example.com/sitemap.xml".toList (.ok ())
      (.xml c9Root) (fun _ => .failed) =
      .error ⟨500,
        "500: Error processing sitemap: 404: No blogs could be analyzed successfully".toList⟩ :=
  ⟨rfl, rfl, rfl⟩

end SeoSpec
